import Mathlib

/-!
Verification of the embedded-dependency license inventory plugin
(`EmbeddedDependenciesWebpackPlugin`), shallowly embedded from the
TypeScript source.  Strings are Lean `String`s, JavaScript `undefined`
is `Option.none`, and JavaScript truthiness on strings/booleans is made
explicit wherever the source relies on it.
-/

set_option maxRecDepth 4000

namespace EmbeddedDeps

/-- One entry of the `licenses` collection of a package manifest:
`{ type: string; url: string }`. -/
structure ILicense where
  type : String
  url : String
deriving DecidableEq, Repr

/-- The `author` field of a package manifest: `string | { name?: string }`. -/
inductive PackageAuthor where
  | str (s : String)
  | obj (name : Option String)
deriving DecidableEq, Repr

/-- Shallow embedding of `IPackageData` (a package.json superset).  `name`
and `version` are required by `IPackageJson`; the remaining fields are
optional.  The same shape is used both for manifests read during Discovery
and for the records pushed during Enrichment, exactly as in the source. -/
structure IPackageData where
  name : String
  version : String
  license : Option String := none
  licenses : Option (List ILicense) := none
  author : Option PackageAuthor := none
  copyright : Option String := none
  licenseSource : Option String := none
deriving DecidableEq, Repr

/-- Value type of the third-party package table:
`{ packageFolderPath: string; packageJsonData: IPackageData }`. -/
structure ThirdPartyEntry where
  packageFolderPath : String
  packageJsonData : IPackageData
deriving DecidableEq, Repr

/-- Embedding of `IResourceResolveData` (the optional fields the plugin
reads from a webpack module-creation event). -/
structure IResourceResolveData where
  descriptionFileData : Option IPackageData := none
  descriptionFileRoot : Option String := none
  relativePath : Option String := none
deriving DecidableEq, Repr

/-- Embedding of `IWebpackModuleCreateData`. -/
structure IWebpackModuleCreateData where
  resourceResolveData : Option IResourceResolveData := none
deriving DecidableEq, Repr

/-- JavaScript string truthiness: a string is falsy exactly when empty. -/
def jsTruthyStr (s : String) : Bool :=
  s != ""

/-- JavaScript `a || b` for an optional string `a` and a string default `b`:
`undefined` and the empty string both fall through to the default. -/
def jsOrStr (a : Option String) (b : String) : String :=
  match a with
  | some s => if jsTruthyStr s then s else b
  | none => b

/-- JavaScript `a || b` where both operands are optional strings. -/
def jsOrOptStr (a b : Option String) : Option String :=
  match a with
  | some s => if jsTruthyStr s then some s else b
  | none => b

/-- Helper for `jsIncludes`: does `sub` occur as a contiguous run inside the
second list? -/
def hasSubstrAux (sub : List Char) : List Char → Bool
  | [] => sub.isEmpty
  | c :: cs => sub.isPrefixOf (c :: cs) || hasSubstrAux sub cs

/-- JavaScript `s.includes(sub)`: substring containment on strings. -/
def jsIncludes (s sub : String) : Bool :=
  hasSubstrAux sub.toList s.toList

/-- Embedding of `makePackageMapKeyForPackage`: the `name@version` key. -/
def makePackageMapKeyForPackage (pkg : IPackageData) : String :=
  pkg.name ++ "@" ++ pkg.version

/-- The third-party package table (`ThirdPartyPackageMap`): a JavaScript
`Map` is modelled as an association list in insertion order. -/
abbrev ThirdPartyPackageMap : Type :=
  List (String × ThirdPartyEntry)

/-- JavaScript `Map.set`: replace the value in place when the key is
already present (keeping its position), otherwise append a new pair. -/
def mapSet (m : ThirdPartyPackageMap) (k : String) (v : ThirdPartyEntry) :
    ThirdPartyPackageMap :=
  if m.any (fun p => p.1 == k) then
    m.map (fun p => if p.1 == k then (k, v) else p)
  else
    m ++ [(k, v)]

/-- Embedding of the body of the `normalModuleFactory.hooks.module` tap:
read the optional descriptor and root path from the event and, when the
guard `pkg && filePath && filter(pkg, filePath) && filePath?.includes('node_modules')`
passes, upsert the table entry keyed by `name@version`.  The returned table
replaces the mutation of the closed-over `thirdPartyPackages` map. -/
def observeModule (packageFilterFunction : IPackageData → String → Bool)
    (tbl : ThirdPartyPackageMap) (ev : IWebpackModuleCreateData) :
    ThirdPartyPackageMap :=
  let pkg : Option IPackageData := ev.resourceResolveData.bind (·.descriptionFileData)
  let filePath : Option String := ev.resourceResolveData.bind (·.descriptionFileRoot)
  match pkg, filePath with
  | some pkg, some fp =>
    if jsTruthyStr fp && packageFilterFunction pkg fp && jsIncludes fp "node_modules" then
      mapSet tbl (makePackageMapKeyForPackage pkg) ⟨fp, pkg⟩
    else
      tbl
  | _, _ => tbl

/-- The Discovery stage over one build: the module hook fires once per
module-resolution event, in event order, starting from the fresh table. -/
def discover (packageFilterFunction : IPackageData → String → Bool)
    (events : List IWebpackModuleCreateData) : ThirdPartyPackageMap :=
  events.foldl (observeModule packageFilterFunction) []

/-- Does the Discovery guard accept this event?  (Same conditions as in
`observeModule`, packaged as a predicate on events.) -/
def acceptsEvent (packageFilterFunction : IPackageData → String → Bool)
    (ev : IWebpackModuleCreateData) : Bool :=
  match ev.resourceResolveData.bind (·.descriptionFileData),
      ev.resourceResolveData.bind (·.descriptionFileRoot) with
  | some pkg, some fp =>
    jsTruthyStr fp && packageFilterFunction pkg fp && jsIncludes fp "node_modules"
  | _, _ => false

/-- The `name@version` key an event would be stored under, when its
descriptor is present. -/
def eventKey (ev : IWebpackModuleCreateData) : Option String :=
  (ev.resourceResolveData.bind (·.descriptionFileData)).map makePackageMapKeyForPackage

/-- The table value an event would be stored as, when descriptor and root
are both present. -/
def eventEntry (ev : IWebpackModuleCreateData) : Option ThirdPartyEntry :=
  match ev.resourceResolveData.bind (·.descriptionFileData),
      ev.resourceResolveData.bind (·.descriptionFileRoot) with
  | some pkg, some fp => some ⟨fp, pkg⟩
  | _, _ => none

/-- Embedding of `parseLicense`.  The source's guard `if (packageData.license)`
is a JavaScript truthiness test, so an empty-string `license` falls through
to the `licenses` collection.  The source's `typeof packageData.licenses === 'string'`
branch is unreachable under the declared `IPackageData` type (`licenses` is
typed as an array of `{type, url}` entries) and is therefore not represented. -/
def parseLicense (packageData : IPackageData) : Option String :=
  if (packageData.license.map jsTruthyStr).getD false then
    packageData.license
  else
    match packageData.licenses with
    | some (l :: ls) =>
      if ls.isEmpty then
        some l.type
      else
        some ("(" ++ String.intercalate " OR " ((l :: ls).map (·.type)) ++ ")")
    | _ => none

/-- Embedding of `parsePackageAuthor`: a string author verbatim, otherwise
the optional `name` sub-field of an object author. -/
def parsePackageAuthor (p : IPackageData) : Option String :=
  match p.author with
  | some (.str s) => some s
  | some (.obj n) => n
  | none => none

/-- Modelled from the spec: the host file-system abstraction, which
"supplies directory listing and whole-file read operations"
(`compiler.inputFileSystem.readdir` and `FileSystem.readFileAsync`, both
outside src).  Failures of these operations are modelled at the batch
level by `EnrichOutcome`; here the success path is total. -/
structure InputFileSystem where
  readdir : String → List String
  readFile : String → String

/-- Modelled from the spec: `LICENSE_FILES_REGEXP` is imported from
`./regexpUtils`, which is not under src.  The spec describes it as a
"case-insensitive match against common variants: LICENSE, LICENSE.md,
LICENSE.txt, LICENSE-MIT, COPYING, etc.", modelled here as case-insensitive
equality with one of those listed variants. -/
def licenseFileMatches (file : String) : Bool :=
  ["LICENSE", "LICENSE.MD", "LICENSE.TXT", "LICENSE-MIT", "COPYING"].contains
    (String.mk (file.toList.map Char.toUpper))

/-- Model of Node's `path.join(dir, file)` for a directory and a bare
filename: the two joined with a single separator. -/
def pathJoin (dir file : String) : String :=
  dir ++ "/" ++ file

/-- Embedding of `_getLicenseFilePathAsync`: list the package folder,
keep the filenames matching the license-filename pattern, join each onto
the folder path, and take element `[0]` (the first match in listing
order) if any. -/
def getLicenseFilePath (fs : InputFileSystem) (modulePath : String) : Option String :=
  ((((fs.readdir modulePath).map id).filter licenseFileMatches).map
    (fun file => pathJoin modulePath file)).head?

/-- Take the remainder of the current line (everything up to the next
newline character). -/
def takeLine (cs : List Char) : List Char :=
  cs.takeWhile (fun c => c ≠ '\n')

/-- Modelled from the spec: helper for `copyrightFirstMatch`; scan for the
first position where the text matches the copyright-statement pattern and
return that match. -/
def findCopyrightFrom : List Char → Option (List Char)
  | [] => none
  | c :: cs =>
    if ("Copyright".toList).isPrefixOf (c :: cs) then
      some (takeLine (c :: cs))
    else
      findCopyrightFrom cs

/-- Modelled from the spec: `COPYRIGHT_REGEX` is imported from
`./regexpUtils`, which is not under src.  The spec says Enrichment extracts
"a copyright line via a copyright-statement pattern match (first match
only)", and its scenario shows the match starting at the word `Copyright`
and running to the end of that line. -/
def copyrightFirstMatch (text : String) : Option String :=
  (findCopyrightFrom text.toList).map (fun cs => String.mk cs)

/-- Embedding of `_parseCopyright`: `licenseSource.match(COPYRIGHT_REGEX)`,
returning `match[0]` (the first match) when there is one. -/
def parseCopyright (licenseSource : String) : Option String :=
  copyrightFirstMatch licenseSource

/-- Embedding of the per-entry body of the `Async.forEachAsync` loop in
`processAssets`: derive the license string, look for a license file, and
push either the record with `licenseSource` and extracted copyright or the
record built from the manifest alone.  The `||` between `_parseCopyright`
and `parsePackageAuthor` is the JavaScript operator (`jsOrOptStr`). -/
def processEntry (fs : InputFileSystem) (entry : ThirdPartyEntry) : IPackageData :=
  let data := entry.packageJsonData
  let license : Option String := parseLicense data
  match getLicenseFilePath fs entry.packageFolderPath with
  | some licensePath =>
    let licenseSource : String := fs.readFile licensePath
    let copyright : Option String :=
      jsOrOptStr (parseCopyright licenseSource) (parsePackageAuthor data)
    { name := data.name, version := data.version, license := license,
      licenseSource := some licenseSource, copyright := copyright }
  | none =>
    let copyright : Option String := parsePackageAuthor data
    { name := data.name, version := data.version, license := license,
      copyright := copyright }

/-- Modelled from the spec: `Sort.sortBy(packages, (pkg) => pkg.name)` from
node-core-library is not under src.  The spec specifies sorting "by name
ascending (stable comparison)", modelled as a stable sort (insertion sort)
under the name key. -/
def sortByName (packages : List IPackageData) : List IPackageData :=
  List.insertionSort (fun a b => a.name ≤ b.name) packages

/-- Embedding of a JavaScript thrown value, as discriminated by
`_emitWebpackError`: a string, an `Error` instance (message plus optional
stack), or any other value (carried as its `JSON.stringify` rendering). -/
inductive JsError where
  | str (s : String)
  | error (message : String) (stack : Option String)
  | other (stringified : String)
deriving DecidableEq, Repr

/-- Embedding of the constant holding the fixed component tag that starts every emitted error message. -/
def pluginErrorTag : String :=
  "[embedded-dependencies-webpack-plugin]"

/-- Embedding of the message construction in `_emitWebpackError`: tag,
caller message, then the error rendered according to its shape (for an
`Error`, its message, a newline and `error.stack || ''`). -/
def emitWebpackErrorMessage (errorMessage : String) (error : JsError) : String :=
  match error with
  | .str s => pluginErrorTag ++ ": " ++ errorMessage ++ ": " ++ s
  | .error message stack =>
    pluginErrorTag ++ ": " ++ errorMessage ++ ": " ++ message ++ "\n" ++ jsOrStr stack ""
  | .other stringified => pluginErrorTag ++ ": " ++ errorMessage ++ ": " ++ stringified

/-- A license-file generator: the user-supplied function may throw, so it
returns `Except`. -/
abbrev LicenseFileGeneratorFunction : Type :=
  List IPackageData → Except JsError String

/-- Embedding of `IEmbeddedDependenciesWebpackPluginOptions`; every field
is optional. -/
structure IEmbeddedDependenciesWebpackPluginOptions where
  outputFileName : Option String := none
  generateLicenseFile : Option Bool := none
  generateLicenseFileFunction : Option LicenseFileGeneratorFunction := none
  generatedLicenseFilename : Option String := none
  packageFilterPredicate : Option (IPackageData → String → Bool) := none

/-- Embedding of `DEFAULT_EMBEDDED_DEPENDENCIES_FILE_NAME`. -/
def DEFAULT_EMBEDDED_DEPENDENCIES_FILE_NAME : String :=
  "embedded-dependencies.json"

/-- Embedding of `DEFAULT_GENERATED_LICENSE_FILE_NAME`. -/
def DEFAULT_GENERATED_LICENSE_FILE_NAME : String :=
  "THIRD-PARTY-NOTICES.html"

/-- Embedding of `DEFAULT_PACKAGE_FILTER_FUNCTION`: accept everything. -/
def DEFAULT_PACKAGE_FILTER_FUNCTION : IPackageData → String → Bool :=
  fun _ _ => true

/-- Embedding of `_defaultLicenseFileGenerator`: one template block per
package, joined with newlines; the content falls back through
`licenseSource || copyright || 'License or Copyright not found'`
(JavaScript truthiness on each step). -/
def defaultLicenseFileGenerator (packages : List IPackageData) : String :=
  let licenseContent : IPackageData → String := fun pkg =>
    jsOrStr pkg.licenseSource (jsOrStr pkg.copyright "License or Copyright not found")
  let licenseTemplateForPackage : IPackageData → String := fun pkg =>
    "<hr />" ++ pkg.name ++ " - " ++ pkg.version ++ "<br /><br />" ++ licenseContent pkg
  String.intercalate "\n" (packages.map licenseTemplateForPackage)

/-- The private plugin state set up by the constructor (the `_`-prefixed
readonly fields, without the underscores). -/
structure EmbeddedDependenciesWebpackPlugin where
  outputFileName : String
  generateLicenseFile : Bool
  generateLicenseFileFunction : LicenseFileGeneratorFunction
  generatedLicenseFilename : String
  packageFilterFunction : IPackageData → String → Bool

/-- Embedding of the plugin constructor: every option is defaulted with
the JavaScript `||` operator, so falsy supplied values (empty strings,
`false`, `undefined`) fall back to the defaults.  Functions are never
falsy, hence `Option.getD` for the two function-valued options.  The
default generator never throws, so it is wrapped in `Except.ok`. -/
def mkPlugin (options : Option IEmbeddedDependenciesWebpackPluginOptions) :
    EmbeddedDependenciesWebpackPlugin where
  outputFileName :=
    jsOrStr (options.bind (·.outputFileName)) DEFAULT_EMBEDDED_DEPENDENCIES_FILE_NAME
  generateLicenseFile :=
    (options.bind (·.generateLicenseFile)).getD false || false
  generateLicenseFileFunction :=
    (options.bind (·.generateLicenseFileFunction)).getD
      (fun packages => Except.ok (defaultLicenseFileGenerator packages))
  generatedLicenseFilename :=
    jsOrStr (options.bind (·.generatedLicenseFilename)) DEFAULT_GENERATED_LICENSE_FILE_NAME
  packageFilterFunction :=
    (options.bind (·.packageFilterPredicate)).getD DEFAULT_PACKAGE_FILTER_FUNCTION

/-- Embedding of `IEmbeddedDependenciesFile`, the shape serialized into
the inventory asset. -/
structure IEmbeddedDependenciesFile where
  name : Option String := none
  version : Option String := none
  embeddedDependencies : List IPackageData
deriving DecidableEq, Repr

/-- Content of an emitted asset: the inventory document (the value passed
to `JSON.stringify`) or raw generated text. -/
inductive AssetSource where
  | json (file : IEmbeddedDependenciesFile)
  | raw (s : String)
deriving DecidableEq, Repr

/-- The observable output of the `processAssets` hook: the assets passed
to `compilation.emitAsset`, in emission order, and the messages pushed
onto `compilation.errors`. -/
structure CompilationOutput where
  assets : List (String × AssetSource)
  errors : List String
deriving Repr

/-- Modelled from the spec: the result of the bounded-concurrency
enrichment batch (`Async.forEachAsync` from node-core-library, not under
src).  Per the spec, "any exception during per-entry processing propagates
up and aborts enrichment for the build" and the caller proceeds "with
whatever entries were resolved before the failure": either every entry was
processed, or an exception was thrown after some sub-collection of records
had been pushed onto `packages`. -/
inductive EnrichOutcome where
  | ok (packages : List IPackageData)
  | err (completedPackages : List IPackageData) (error : JsError)

/-- The records accumulated in `packages` when the try block finishes,
normally or exceptionally. -/
def outcomePackages : EnrichOutcome → List IPackageData
  | .ok packages => packages
  | .err completedPackages _ => completedPackages

/-- Embedding of the tail of the `processAssets` hook, starting from the
state of `packages` when the `Async.forEachAsync` call settles
(`outcome`): the catch block reports a batch failure, the finally block
sorts `packages` in place, the inventory asset is always emitted, and the
license asset is attempted only when enabled, with its own try/catch. -/
def processAssetsRun (plugin : EmbeddedDependenciesWebpackPlugin)
    (outcome : EnrichOutcome) : CompilationOutput :=
  let batchErrors : List String :=
    match outcome with
    | .ok _ => []
    | .err _ error => [emitWebpackErrorMessage "Failed to process embedded dependencies" error]
  let packages : List IPackageData := sortByName (outcomePackages outcome)
  let dataToStringify : IEmbeddedDependenciesFile := { embeddedDependencies := packages }
  let inventoryAsset : String × AssetSource := (plugin.outputFileName, .json dataToStringify)
  if plugin.generateLicenseFile then
    match plugin.generateLicenseFileFunction packages with
    | .ok content =>
      { assets := [inventoryAsset, (plugin.generatedLicenseFilename, .raw content)],
        errors := batchErrors }
    | .error error =>
      { assets := [inventoryAsset],
        errors := batchErrors ++ [emitWebpackErrorMessage "Failed to generate license file" error] }
  else
    { assets := [inventoryAsset], errors := batchErrors }

/-!  Definitions used only to state and settle claims. -/

/-- Said by the amended claim C3, following the spec's license-derivation
words for the `licenses` collection: exactly one entry gives its type,
several entries give all types joined with " OR " in parentheses,
otherwise nothing. -/
def specLicensesJoin : Option (List ILicense) → Option String
  | some [e] => some e.type
  | some (e1 :: e2 :: rest) =>
    some ("(" ++ String.intercalate " OR " ((e1 :: e2 :: rest).map (·.type)) ++ ")")
  | _ => none

/-- Said by the amended claim C3: the derived license string is the scalar
license field when present and non-empty, and otherwise comes from the
`licenses` collection as in `specLicensesJoin`. -/
def derivedLicenseSpec (d : IPackageData) : Option String :=
  match d.license with
  | some s => if s = "" then specLicensesJoin d.licenses else some s
  | none => specLicensesJoin d.licenses

/-!  Helper lemmas. -/

theorem jsOrStr_ne_empty (a : Option String) {b : String} (hb : b ≠ "") :
    jsOrStr a b ≠ "" := by
  rcases a with _ | s
  · exact hb
  · by_cases hs : s = ""
    · simp [jsOrStr, jsTruthyStr, hs, hb]
    · simp [jsOrStr, jsTruthyStr, hs]

/-- Sorting instance: the name comparison is total. -/
instance : IsTotal IPackageData (fun a b => a.name ≤ b.name) :=
  ⟨fun a b => le_total a.name b.name⟩

/-- Sorting instance: the name comparison is transitive. -/
instance : IsTrans IPackageData (fun a b => a.name ≤ b.name) :=
  ⟨fun _ _ _ hab hbc => le_trans hab hbc⟩

theorem sortByName_sorted (l : List IPackageData) :
    List.Sorted (fun a b => a.name ≤ b.name) (sortByName l) :=
  List.sorted_insertionSort _ l

theorem sortByName_perm (l : List IPackageData) : (sortByName l).Perm l :=
  List.perm_insertionSort _ l

/-- A name-sorted list whose names are distinct is strictly sorted on
names. -/
theorem strict_of_sorted_nodup {l : List IPackageData}
    (hs : l.Pairwise fun a b => a.name ≤ b.name)
    (hn : (l.map (·.name)).Nodup) :
    l.Pairwise fun a b => a.name < b.name := by
  have hne : l.Pairwise fun a b => a.name ≠ b.name := (List.pairwise_map).mp hn
  exact (hs.and hne).imp fun h => lt_of_le_of_ne h.1 h.2

/-- Two permuted lists that are both strictly sorted on names are equal. -/
theorem eq_of_perm_of_strict :
    ∀ {l₁ l₂ : List IPackageData}, l₁.Perm l₂ →
      l₁.Pairwise (fun a b => a.name < b.name) →
      l₂.Pairwise (fun a b => a.name < b.name) → l₁ = l₂ := by
  intro l₁
  induction l₁ with
  | nil =>
    intro l₂ hp _ _
    exact hp.nil_eq
  | cons a t ih =>
    intro l₂ hp h₁ h₂
    cases l₂ with
    | nil => exact absurd hp.symm.nil_eq (by simp)
    | cons b t₂ =>
      have hab : a = b := by
        have ha : a ∈ b :: t₂ := hp.subset (List.mem_cons_self a t)
        have hb : b ∈ a :: t := hp.symm.subset (List.mem_cons_self b t₂)
        rcases List.mem_cons.mp ha with h | ha'
        · exact h
        · rcases List.mem_cons.mp hb with h | hb'
          · exact h.symm
          · have h1 : a.name < b.name := (List.pairwise_cons.mp h₁).1 b hb'
            have h2 : b.name < a.name := (List.pairwise_cons.mp h₂).1 a ha'
            exact absurd (h1.trans h2) (lt_irrefl _)
      subst hab
      have hpt : t.Perm t₂ := hp.cons_inv
      rw [ih hpt (List.pairwise_cons.mp h₁).2 (List.pairwise_cons.mp h₂).2]

/-!  Claim C3. -/

/-- Claim C3, counterexample: a descriptor with a present (but empty)
scalar `license` field and a two-entry `licenses` collection.  The claim
says the derived license string is the scalar field whenever it is
present, but the code's JavaScript truthiness guard skips the empty
string and joins the collection instead. -/
theorem c3_counterexample :
    (IPackageData.mk "pkg" "1.0.0" (some "")
        (some [⟨"MIT", "https://mit.example"⟩, ⟨"Apache-2.0", "https://apache.example"⟩])
        none none none).license = some "" ∧
    parseLicense (IPackageData.mk "pkg" "1.0.0" (some "")
        (some [⟨"MIT", "https://mit.example"⟩, ⟨"Apache-2.0", "https://apache.example"⟩])
        none none none) = some "(MIT OR Apache-2.0)" ∧
    parseLicense (IPackageData.mk "pkg" "1.0.0" (some "")
        (some [⟨"MIT", "https://mit.example"⟩, ⟨"Apache-2.0", "https://apache.example"⟩])
        none none none) ≠ some "" := by
  refine ⟨rfl, by decide, by decide⟩

/-- Claim C3 (amended): for every package descriptor, the derived license
string is: the scalar license field when present and non-empty (truthy);
otherwise, when the licenses collection has exactly one entry, that
entry's type; otherwise, when it has multiple entries, all types joined
with " OR " and wrapped in parentheses; otherwise absent. -/
theorem c3_license_derivation (d : IPackageData) :
    parseLicense d = derivedLicenseSpec d := by
  rcases d with ⟨name, version, license, licenses, author, copyright, licenseSource⟩
  rcases license with _ | s
  · rcases licenses with _ | ls
    · rfl
    · rcases ls with _ | ⟨l, ls⟩
      · rfl
      · rcases ls with _ | ⟨l2, ls⟩ <;> rfl
  · by_cases hs : s = ""
    · subst hs
      rcases licenses with _ | ls
      · rfl
      · rcases ls with _ | ⟨l, ls⟩
        · rfl
        · rcases ls with _ | ⟨l2, ls⟩ <;> rfl
    · simp [parseLicense, derivedLicenseSpec, jsTruthyStr, hs]

/-!  Claim C10. -/

/-- Claim C10: plugin-constructor option defaulting is by truthiness, not
by presence — any falsy supplied option value is replaced by its default,
so an explicitly supplied empty-string `outputFileName` yields
"embedded-dependencies.json", an explicit `generateLicenseFile := false`
is indistinguishable from omitting it, and an empty-string
`generatedLicenseFilename` yields "THIRD-PARTY-NOTICES.html";
consequently the emitted artifact names are never the empty string. -/
theorem c10_truthiness_defaulting :
    (∀ options : Option IEmbeddedDependenciesWebpackPluginOptions,
      (mkPlugin options).outputFileName ≠ "" ∧
      (mkPlugin options).generatedLicenseFilename ≠ "") ∧
    (∀ opts : IEmbeddedDependenciesWebpackPluginOptions,
      (mkPlugin (some { opts with outputFileName := some "" })).outputFileName =
        "embedded-dependencies.json" ∧
      (mkPlugin (some { opts with generatedLicenseFilename := some "" })).generatedLicenseFilename =
        "THIRD-PARTY-NOTICES.html" ∧
      mkPlugin (some { opts with generateLicenseFile := some false }) =
        mkPlugin (some { opts with generateLicenseFile := none })) := by
  constructor
  · intro options
    exact ⟨jsOrStr_ne_empty _ (by decide), jsOrStr_ne_empty _ (by decide)⟩
  · intro opts
    exact ⟨rfl, rfl, rfl⟩

/-!  Substring lemmas for `jsIncludes`, used to settle the error-message
containment of claim C6 for every thrown error. -/

theorem hasSubstrAux_nil_sub (l : List Char) : hasSubstrAux [] l = true := by
  cases l <;> simp [hasSubstrAux, List.isPrefixOf]

theorem isPrefixOf_self_append (sub l : List Char) :
    sub.isPrefixOf (sub ++ l) = true := by
  induction sub with
  | nil => simp [List.isPrefixOf]
  | cons c cs ih => simp [List.isPrefixOf, ih]

theorem isPrefixOf_append_of {sub l : List Char} (t : List Char)
    (h : sub.isPrefixOf l = true) : sub.isPrefixOf (l ++ t) = true := by
  induction sub generalizing l with
  | nil => simp [List.isPrefixOf]
  | cons a as ih =>
    cases l with
    | nil => exact absurd h (by simp [List.isPrefixOf])
    | cons b bs =>
      simp only [List.isPrefixOf, Bool.and_eq_true] at h
      simp only [List.cons_append, List.isPrefixOf, Bool.and_eq_true]
      exact ⟨h.1, ih h.2⟩

theorem hasSubstrAux_append_right (sub l t : List Char)
    (h : hasSubstrAux sub l = true) : hasSubstrAux sub (l ++ t) = true := by
  induction l with
  | nil =>
    have hsub : sub = [] := List.isEmpty_iff.mp h
    subst hsub
    exact hasSubstrAux_nil_sub t
  | cons c cs ih =>
    simp only [hasSubstrAux, Bool.or_eq_true] at h
    simp only [List.cons_append, hasSubstrAux, Bool.or_eq_true]
    rcases h with h | h
    · exact .inl (isPrefixOf_append_of t h)
    · exact .inr (ih h)

theorem hasSubstrAux_append_left (sub l t : List Char)
    (h : hasSubstrAux sub t = true) : hasSubstrAux sub (l ++ t) = true := by
  induction l with
  | nil => exact h
  | cons c cs ih =>
    simp only [List.cons_append, hasSubstrAux, Bool.or_eq_true]
    exact .inr ih

theorem hasSubstrAux_self_append (sub l : List Char) :
    hasSubstrAux sub (sub ++ l) = true := by
  cases sub with
  | nil => exact hasSubstrAux_nil_sub l
  | cons c cs =>
    simp only [List.cons_append, hasSubstrAux, Bool.or_eq_true]
    exact .inl (isPrefixOf_self_append (c :: cs) l)

theorem strToList_append (a b : String) : (a ++ b).toList = a.toList ++ b.toList := by
  cases a
  cases b
  rfl

theorem jsIncludes_append_right (a b sub : String) (h : jsIncludes a sub = true) :
    jsIncludes (a ++ b) sub = true := by
  unfold jsIncludes at h ⊢
  rw [strToList_append]
  exact hasSubstrAux_append_right _ _ _ h

theorem jsIncludes_append_left (a b sub : String) (h : jsIncludes b sub = true) :
    jsIncludes (a ++ b) sub = true := by
  unfold jsIncludes at h ⊢
  rw [strToList_append]
  exact hasSubstrAux_append_left _ _ _ h

theorem jsIncludes_refl (s : String) : jsIncludes s s = true := by
  unfold jsIncludes
  simpa using hasSubstrAux_self_append s.toList []

/-- The thrown value's own message, as rendered into the emitted error
text by `_emitWebpackError`: a thrown string itself, an `Error`'s
`message`, and otherwise the `JSON.stringify` rendering. -/
def jsErrorText : JsError → String
  | .str s => s
  | .error message _ => message
  | .other stringified => stringified

/-!  Claim C6. -/

/-- Claim C6: for every thrown template-function error, when license-file
generation is enabled the primary inventory asset is still emitted (and is
the only asset, so no license-document artifact is emitted), and a build
error is recorded whose message contains both "Failed to generate license
file" and the thrown error's message. -/
theorem c6_template_failure (opts : IEmbeddedDependenciesWebpackPluginOptions)
    (packages : List IPackageData) (e : JsError) :
    let plugin := mkPlugin (some { opts with
      generateLicenseFile := some true,
      generateLicenseFileFunction := some fun _ => Except.error e })
    processAssetsRun plugin (.ok packages) =
      { assets := [(plugin.outputFileName,
          .json { embeddedDependencies := sortByName packages })],
        errors := [emitWebpackErrorMessage "Failed to generate license file" e] } ∧
    jsIncludes (emitWebpackErrorMessage "Failed to generate license file" e)
      "Failed to generate license file" = true ∧
    jsIncludes (emitWebpackErrorMessage "Failed to generate license file" e)
      (jsErrorText e) = true := by
  refine ⟨rfl, ?_, ?_⟩
  · cases e with
    | str s =>
      simp only [emitWebpackErrorMessage]
      exact jsIncludes_append_right _ _ _ (jsIncludes_append_right _ _ _
        (jsIncludes_append_left _ _ _ (jsIncludes_refl _)))
    | error message stack =>
      simp only [emitWebpackErrorMessage]
      exact jsIncludes_append_right _ _ _ (jsIncludes_append_right _ _ _
        (jsIncludes_append_right _ _ _ (jsIncludes_append_right _ _ _
          (jsIncludes_append_left _ _ _ (jsIncludes_refl _)))))
    | other stringified =>
      simp only [emitWebpackErrorMessage]
      exact jsIncludes_append_right _ _ _ (jsIncludes_append_right _ _ _
        (jsIncludes_append_left _ _ _ (jsIncludes_refl _)))
  · cases e with
    | str s =>
      simp only [emitWebpackErrorMessage, jsErrorText]
      exact jsIncludes_append_left _ _ _ (jsIncludes_refl _)
    | error message stack =>
      simp only [emitWebpackErrorMessage, jsErrorText]
      exact jsIncludes_append_right _ _ _ (jsIncludes_append_right _ _ _
        (jsIncludes_append_left _ _ _ (jsIncludes_refl _)))
    | other stringified =>
      simp only [emitWebpackErrorMessage, jsErrorText]
      exact jsIncludes_append_left _ _ _ (jsIncludes_refl _)

/-- Witness for claim C6, re-anchoring the spec's scenario: the template
function throwing `Error("bad template")` leaves exactly the inventory
asset plus one error message containing both required fragments. -/
theorem c6_template_failure_witness :
    (processAssetsRun (mkPlugin (some ({ generateLicenseFile := some true,
                                         generateLicenseFileFunction := some (fun _ =>
                                           Except.error (JsError.error "bad template" none)) } :
        IEmbeddedDependenciesWebpackPluginOptions)))
      (.ok [])).errors =
      [emitWebpackErrorMessage "Failed to generate license file"
        (JsError.error "bad template" none)] ∧
    jsIncludes (emitWebpackErrorMessage "Failed to generate license file"
      (JsError.error "bad template" none)) "Failed to generate license file" = true ∧
    jsIncludes (emitWebpackErrorMessage "Failed to generate license file"
      (JsError.error "bad template" none)) "bad template" = true := by
  have h := c6_template_failure {} [] (JsError.error "bad template" none)
  exact ⟨congrArg CompilationOutput.errors h.1, h.2.1, h.2.2⟩

/-!  Claim C5. -/

/-- Claim C5: whatever the outcome of the enrichment batch, the inventory
document is emitted (as the first emitted asset) and contains exactly the
records completed before any failure, sorted by name; when a per-entry
enrichment operation throws, the exception is caught at the batch level
and reported as a build error attributed to processing embedded
dependencies. -/
theorem c5_batch_failure_semantics (plugin : EmbeddedDependenciesWebpackPlugin)
    (outcome : EnrichOutcome) :
    (processAssetsRun plugin outcome).assets.head? =
      some (plugin.outputFileName,
        .json { embeddedDependencies := sortByName (outcomePackages outcome) }) ∧
    List.Sorted (fun a b => a.name ≤ b.name) (sortByName (outcomePackages outcome)) ∧
    ∀ (completedPackages : List IPackageData) (error : JsError),
      ∃ m ∈ (processAssetsRun plugin (.err completedPackages error)).errors,
        m = emitWebpackErrorMessage "Failed to process embedded dependencies" error := by
  refine ⟨?_, sortByName_sorted _, ?_⟩
  · simp only [processAssetsRun]
    by_cases hg : plugin.generateLicenseFile
    · simp only [hg]
      cases hgen : plugin.generateLicenseFileFunction (sortByName (outcomePackages outcome)) <;>
        simp [hgen]
    · simp [hg]
  · intro completedPackages error
    refine ⟨emitWebpackErrorMessage "Failed to process embedded dependencies" error, ?_, rfl⟩
    simp only [processAssetsRun, outcomePackages]
    by_cases hg : plugin.generateLicenseFile
    · simp only [hg]
      cases hgen : plugin.generateLicenseFileFunction (sortByName completedPackages) <;>
        simp [hgen]
    · simp [hg]

/-!  Claim C2. -/

/-- Claim C2, counterexample: two records sharing the name "a" (with
versions "1.0.0" and "2.0.0").  The two discovery orders of this one
multiset are both already name-sorted, so the stable sort returns each
unchanged and the two runs produce different output orders: there is no
deterministic secondary criterion for equal names. -/
theorem c2_counterexample :
    List.Perm [IPackageData.mk "a" "1.0.0" none none none none none,
        IPackageData.mk "a" "2.0.0" none none none none none]
      [IPackageData.mk "a" "2.0.0" none none none none none,
        IPackageData.mk "a" "1.0.0" none none none none none] ∧
    sortByName [IPackageData.mk "a" "1.0.0" none none none none none,
        IPackageData.mk "a" "2.0.0" none none none none none] =
      [IPackageData.mk "a" "1.0.0" none none none none none,
        IPackageData.mk "a" "2.0.0" none none none none none] ∧
    sortByName [IPackageData.mk "a" "2.0.0" none none none none none,
        IPackageData.mk "a" "1.0.0" none none none none none] =
      [IPackageData.mk "a" "2.0.0" none none none none none,
        IPackageData.mk "a" "1.0.0" none none none none none] ∧
    sortByName [IPackageData.mk "a" "1.0.0" none none none none none,
        IPackageData.mk "a" "2.0.0" none none none none none] ≠
      sortByName [IPackageData.mk "a" "2.0.0" none none none none none,
        IPackageData.mk "a" "1.0.0" none none none none none] := by
  have h1 : sortByName [IPackageData.mk "a" "1.0.0" none none none none none,
      IPackageData.mk "a" "2.0.0" none none none none none] =
      [IPackageData.mk "a" "1.0.0" none none none none none,
        IPackageData.mk "a" "2.0.0" none none none none none] := by
    simp [sortByName, List.insertionSort, List.orderedInsert]
  have h2 : sortByName [IPackageData.mk "a" "2.0.0" none none none none none,
      IPackageData.mk "a" "1.0.0" none none none none none] =
      [IPackageData.mk "a" "2.0.0" none none none none none,
        IPackageData.mk "a" "1.0.0" none none none none none] := by
    simp [sortByName, List.insertionSort, List.orderedInsert]
  refine ⟨by decide, h1, h2, ?_⟩
  rw [h1, h2]
  decide

/-- Claim C2 (amended): for every list of enrichment-produced records, the
Reporting stage's output array is sorted ascending by package name and is
a permutation of the input; ties between equal names keep their input
(discovery) order (stable sort, no secondary criterion), so two runs over
the same multiset of records in different discovery orders are guaranteed
to yield the same output order when the package names are distinct. -/
theorem c2_sorted_output (l : List IPackageData) :
    List.Sorted (fun a b => a.name ≤ b.name) (sortByName l) ∧
    (sortByName l).Perm l ∧
    ∀ l' : List IPackageData, l.Perm l' → (l.map (·.name)).Nodup →
      sortByName l = sortByName l' := by
  refine ⟨sortByName_sorted l, sortByName_perm l, ?_⟩
  intro l' hp hn
  have hperm : (sortByName l).Perm (sortByName l') :=
    ((sortByName_perm l).trans hp).trans (sortByName_perm l').symm
  have hn1 : ((sortByName l).map (·.name)).Nodup :=
    (((sortByName_perm l).map (·.name)).nodup_iff).mpr hn
  have hn2 : ((sortByName l').map (·.name)).Nodup :=
    ((hperm.map (·.name)).nodup_iff).mp hn1
  exact eq_of_perm_of_strict hperm
    (strict_of_sorted_nodup (sortByName_sorted l) hn1)
    (strict_of_sorted_nodup (sortByName_sorted l') hn2)

/-- Witness for claim C2: applying the amended theorem to the two-record
list with the distinct names "b" and "a" and to its other discovery
order shows the two runs agree. -/
theorem c2_sorted_output_witness :
    sortByName [IPackageData.mk "b" "1.0.0" none none none none none,
        IPackageData.mk "a" "1.0.0" none none none none none] =
      sortByName [IPackageData.mk "a" "1.0.0" none none none none none,
        IPackageData.mk "b" "1.0.0" none none none none none] :=
  (c2_sorted_output [IPackageData.mk "b" "1.0.0" none none none none none,
      IPackageData.mk "a" "1.0.0" none none none none none]).2.2
    [IPackageData.mk "a" "1.0.0" none none none none none,
      IPackageData.mk "b" "1.0.0" none none none none none]
    (by decide) (by decide)

/-!  Lemmas about the table and the Discovery hook. -/

theorem mapSet_map_fst (m : ThirdPartyPackageMap) (k : String) (v : ThirdPartyEntry) :
    (mapSet m k v).map Prod.fst =
      if m.any (fun p => p.1 == k) then m.map Prod.fst else m.map Prod.fst ++ [k] := by
  unfold mapSet
  by_cases hmem : m.any (fun p => p.1 == k)
  · simp only [hmem, if_true, List.map_map]
    apply List.map_congr_left
    intro p _
    by_cases hp : p.1 == k
    · simp only [Function.comp_apply, if_pos hp]
      exact (eq_of_beq hp).symm
    · have hp' : p.1 ≠ k := by simpa using hp
      simp [Function.comp_apply, hp']
  · simp [hmem]

theorem mem_fst_mapSet (m : ThirdPartyPackageMap) (k : String) (v : ThirdPartyEntry)
    (k' : String) :
    k' ∈ (mapSet m k v).map Prod.fst ↔ k' ∈ m.map Prod.fst ∨ k' = k := by
  rw [mapSet_map_fst]
  by_cases hmem : m.any (fun p => p.1 == k)
  · simp only [hmem, if_true]
    constructor
    · exact Or.inl
    · rintro (h | rfl)
      · exact h
      · rcases List.any_eq_true.mp hmem with ⟨p, hp, hpk⟩
        exact List.mem_map.mpr ⟨p, hp, eq_of_beq hpk⟩
  · simp [hmem]

theorem mapSet_fst_nodup {m : ThirdPartyPackageMap} {k : String} {v : ThirdPartyEntry}
    (h : (m.map Prod.fst).Nodup) : ((mapSet m k v).map Prod.fst).Nodup := by
  rw [mapSet_map_fst]
  by_cases hmem : m.any (fun p => p.1 == k)
  · simpa [hmem] using h
  · simp only [hmem, if_false, Bool.false_eq_true]
    refine h.append (List.nodup_singleton k) ?_
    intro a ha hk
    rcases List.mem_singleton.mp hk with rfl
    have : ∃ p ∈ m, (p.1 == a) = true := by
      rcases List.mem_map.mp ha with ⟨p, hp, hpa⟩
      exact ⟨p, hp, beq_iff_eq.mpr hpa⟩
    exact hmem (List.any_eq_true.mpr this)

theorem mem_mapSet_pair {m : ThirdPartyPackageMap} {k : String} {v : ThirdPartyEntry}
    {p : String × ThirdPartyEntry} (h : p ∈ mapSet m k v) : p ∈ m ∨ p = (k, v) := by
  unfold mapSet at h
  by_cases hmem : m.any (fun q => q.1 == k)
  · simp only [hmem, if_true] at h
    rcases List.mem_map.mp h with ⟨q, hq, hqe⟩
    by_cases hqk : q.1 == k
    · right
      rw [← hqe]
      simp [hqk]
    · left
      rw [← hqe]
      simpa [hqk] using hq
  · simp only [hmem, Bool.false_eq_true, if_false, List.mem_append,
      List.mem_singleton] at h
    exact h

/-- Unfolding lemma: `observeModule` with its two optional reads exposed
as match scrutinees. -/
theorem observeModule_eq (pred : IPackageData → String → Bool)
    (tbl : ThirdPartyPackageMap) (ev : IWebpackModuleCreateData) :
    observeModule pred tbl ev =
      match ev.resourceResolveData.bind (·.descriptionFileData),
          ev.resourceResolveData.bind (·.descriptionFileRoot) with
      | some pkg, some fp =>
        if jsTruthyStr fp && pred pkg fp && jsIncludes fp "node_modules" then
          mapSet tbl (makePackageMapKeyForPackage pkg) ⟨fp, pkg⟩
        else
          tbl
      | _, _ => tbl := rfl

theorem observe_of_not_accepts (pred : IPackageData → String → Bool)
    (tbl : ThirdPartyPackageMap) (ev : IWebpackModuleCreateData)
    (h : acceptsEvent pred ev = false) : observeModule pred tbl ev = tbl := by
  rw [observeModule_eq]
  unfold acceptsEvent at h
  rcases hd : ev.resourceResolveData.bind (·.descriptionFileData) with _ | pkg
  · simp
  · rcases hr : ev.resourceResolveData.bind (·.descriptionFileRoot) with _ | fp
    · simp
    · rw [hd, hr] at h
      change (jsTruthyStr fp && pred pkg fp && jsIncludes fp "node_modules") = false at h
      simp [h]

theorem observe_of_accepts (pred : IPackageData → String → Bool)
    (tbl : ThirdPartyPackageMap) (ev : IWebpackModuleCreateData)
    {pkg : IPackageData} {fp : String}
    (hd : ev.resourceResolveData.bind (·.descriptionFileData) = some pkg)
    (hr : ev.resourceResolveData.bind (·.descriptionFileRoot) = some fp)
    (hguard : (jsTruthyStr fp && pred pkg fp && jsIncludes fp "node_modules") = true) :
    observeModule pred tbl ev = mapSet tbl (makePackageMapKeyForPackage pkg) ⟨fp, pkg⟩ := by
  rw [observeModule_eq, hd, hr]
  simp [hguard]

theorem accepts_elim {pred : IPackageData → String → Bool} {ev : IWebpackModuleCreateData}
    (h : acceptsEvent pred ev = true) :
    ∃ pkg fp,
      ev.resourceResolveData.bind (·.descriptionFileData) = some pkg ∧
      ev.resourceResolveData.bind (·.descriptionFileRoot) = some fp ∧
      (jsTruthyStr fp && pred pkg fp && jsIncludes fp "node_modules") = true ∧
      eventKey ev = some (makePackageMapKeyForPackage pkg) ∧
      eventEntry ev = some ⟨fp, pkg⟩ := by
  unfold acceptsEvent at h
  rcases hd : ev.resourceResolveData.bind (·.descriptionFileData) with _ | pkg
  · rcases hr : ev.resourceResolveData.bind (·.descriptionFileRoot) with _ | fp <;>
      rw [hd, hr] at h <;> exact Bool.noConfusion h
  · rcases hr : ev.resourceResolveData.bind (·.descriptionFileRoot) with _ | fp
    · rw [hd, hr] at h
      exact Bool.noConfusion h
    · rw [hd, hr] at h
      refine ⟨pkg, fp, rfl, rfl, h, ?_, ?_⟩
      · unfold eventKey
        rw [hd]
        rfl
      · unfold eventEntry
        rw [hd, hr]

/-- Invariant of the Discovery fold, for an arbitrary starting table:
distinct keys stay distinct, the key set grows by exactly the keys of
accepted events, and every stored pair comes from the start table or from
an accepted event. -/
theorem foldl_observe_inv (pred : IPackageData → String → Bool) :
    ∀ (events : List IWebpackModuleCreateData) (tbl : ThirdPartyPackageMap),
      ((tbl.map Prod.fst).Nodup →
        ((events.foldl (observeModule pred) tbl).map Prod.fst).Nodup) ∧
      (∀ k, k ∈ (events.foldl (observeModule pred) tbl).map Prod.fst ↔
        k ∈ tbl.map Prod.fst ∨
          ∃ ev ∈ events, acceptsEvent pred ev = true ∧ eventKey ev = some k) ∧
      (∀ p : String × ThirdPartyEntry, p ∈ events.foldl (observeModule pred) tbl →
        p ∈ tbl ∨ ∃ ev ∈ events, acceptsEvent pred ev = true ∧
          eventKey ev = some p.1 ∧ eventEntry ev = some p.2) := by
  intro events
  induction events with
  | nil =>
    intro tbl
    simp
  | cons ev evs ih =>
    intro tbl
    by_cases hacc : acceptsEvent pred ev = true
    · obtain ⟨pkg, fp, hd, hr, hguard, hkey, hentry⟩ := accepts_elim hacc
      have hobs : observeModule pred tbl ev =
          mapSet tbl (makePackageMapKeyForPackage pkg) ⟨fp, pkg⟩ :=
        observe_of_accepts pred tbl ev hd hr hguard
      simp only [List.foldl_cons, hobs]
      obtain ⟨ih1, ih2, ih3⟩ := ih (mapSet tbl (makePackageMapKeyForPackage pkg) ⟨fp, pkg⟩)
      refine ⟨fun hnd => ih1 (mapSet_fst_nodup hnd), ?_, ?_⟩
      · intro k
        rw [ih2 k, mem_fst_mapSet]
        constructor
        · rintro ((h | rfl) | ⟨ev', hev', ha, hk⟩)
          · exact .inl h
          · exact .inr ⟨ev, List.mem_cons_self ev evs, hacc, hkey⟩
          · exact .inr ⟨ev', List.mem_cons_of_mem ev hev', ha, hk⟩
        · rintro (h | ⟨ev', hev', ha, hk⟩)
          · exact .inl (.inl h)
          · rcases List.mem_cons.mp hev' with rfl | hev'
            · refine .inl (.inr ?_)
              rw [hkey] at hk
              exact (Option.some.inj hk).symm
            · exact .inr ⟨ev', hev', ha, hk⟩
      · intro p hp
        rcases ih3 p hp with hmem | ⟨ev', hev', ha, hk, he⟩
        · rcases mem_mapSet_pair hmem with h | h
          · exact .inl h
          · subst h
            exact .inr ⟨ev, List.mem_cons_self ev evs, hacc, hkey, hentry⟩
        · exact .inr ⟨ev', List.mem_cons_of_mem ev hev', ha, hk, he⟩
    · have hne : acceptsEvent pred ev = false := Bool.eq_false_iff.mpr hacc
      simp only [List.foldl_cons, observe_of_not_accepts pred tbl ev hne]
      obtain ⟨ih1, ih2, ih3⟩ := ih tbl
      refine ⟨ih1, ?_, ?_⟩
      · intro k
        rw [ih2 k]
        constructor
        · rintro (h | ⟨ev', hev', ha, hk⟩)
          · exact .inl h
          · exact .inr ⟨ev', List.mem_cons_of_mem ev hev', ha, hk⟩
        · rintro (h | ⟨ev', hev', ha, hk⟩)
          · exact .inl h
          · rcases List.mem_cons.mp hev' with rfl | hev'
            · exact absurd ha hacc
            · exact .inr ⟨ev', hev', ha, hk⟩
      · intro p hp
        rcases ih3 p hp with h | ⟨ev', hev', ha, hk, he⟩
        · exact .inl h
        · exact .inr ⟨ev', List.mem_cons_of_mem ev hev', ha, hk, he⟩

/-!  Claim C1. -/

/-- Claim C1: for every sequence of module-resolution events observed
during one build, after Discovery completes the third-party table contains
exactly one entry per distinct `name@version` key — the key list has no
duplicates, a key is present exactly when some accepted event carries it
(no matter how many events carried it), and every stored entry's
descriptor and folder path come from one of the accepted observations of
that key. -/
theorem c1_one_entry_per_key (pred : IPackageData → String → Bool)
    (events : List IWebpackModuleCreateData) :
    ((discover pred events).map Prod.fst).Nodup ∧
    (∀ k : String, (∃ v, (k, v) ∈ discover pred events) ↔
      ∃ ev ∈ events, acceptsEvent pred ev = true ∧ eventKey ev = some k) ∧
    (∀ k v, (k, v) ∈ discover pred events →
      ∃ ev ∈ events, acceptsEvent pred ev = true ∧
        eventKey ev = some k ∧ eventEntry ev = some v) := by
  unfold discover
  obtain ⟨h1, h2, h3⟩ := foldl_observe_inv pred events []
  refine ⟨h1 (by simp), ?_, ?_⟩
  · intro k
    constructor
    · rintro ⟨v, hv⟩
      have hk : k ∈ (events.foldl (observeModule pred) []).map Prod.fst :=
        List.mem_map.mpr ⟨(k, v), hv, rfl⟩
      rcases (h2 k).mp hk with h | h
      · simp at h
      · exact h
    · intro hex
      have hk : k ∈ (events.foldl (observeModule pred) []).map Prod.fst :=
        (h2 k).mpr (.inr hex)
      rcases List.mem_map.mp hk with ⟨⟨k', v⟩, hp, hke⟩
      cases hke
      exact ⟨v, hp⟩
  · intro k v hkv
    rcases h3 (k, v) hkv with h | h
    · simp at h
    · exact h

/-- Witness for claim C1: a build that resolves the same package twice
(same `name@version`, two module paths) ends Discovery with duplicate-free
keys and with the key `foo@1.0.0` present. -/
theorem c1_one_entry_per_key_witness :
    ((discover (fun _ _ => true)
        [⟨some ⟨some ⟨"foo", "1.0.0", none, none, none, none, none⟩,
            some "/r/node_modules/foo", none⟩⟩,
          ⟨some ⟨some ⟨"foo", "1.0.0", none, none, none, none, none⟩,
            some "/r/node_modules/foo2", none⟩⟩]).map Prod.fst).Nodup ∧
    ∃ v, ("foo@1.0.0", v) ∈ discover (fun _ _ => true)
        [⟨some ⟨some ⟨"foo", "1.0.0", none, none, none, none, none⟩,
            some "/r/node_modules/foo", none⟩⟩,
          ⟨some ⟨some ⟨"foo", "1.0.0", none, none, none, none, none⟩,
            some "/r/node_modules/foo2", none⟩⟩] := by
  have h := c1_one_entry_per_key (fun _ _ => true)
    [⟨some ⟨some ⟨"foo", "1.0.0", none, none, none, none, none⟩,
        some "/r/node_modules/foo", none⟩⟩,
      ⟨some ⟨some ⟨"foo", "1.0.0", none, none, none, none, none⟩,
        some "/r/node_modules/foo2", none⟩⟩]
  refine ⟨h.1, (h.2.1 "foo@1.0.0").mpr ?_⟩
  exact ⟨⟨some ⟨some ⟨"foo", "1.0.0", none, none, none, none, none⟩,
      some "/r/node_modules/foo", none⟩⟩, by decide, by decide, by decide⟩

/-!  Claim C4. -/

/-- Claim C4: for every module-resolution event, Discovery adds or
overwrites a table entry exactly when the package descriptor is present,
the package-root path is present, the inclusion predicate returns true,
and the path contains the dependency-storage segment `node_modules`
(a string match on the path, not a filesystem check); events failing any
of these conditions leave the table unchanged (silently skipped, never an
error — the hook is total). -/
theorem c4_discovery_guard (pred : IPackageData → String → Bool)
    (tbl : ThirdPartyPackageMap) (ev : IWebpackModuleCreateData) :
    (∀ pkg fp,
      ev.resourceResolveData.bind (·.descriptionFileData) = some pkg →
      ev.resourceResolveData.bind (·.descriptionFileRoot) = some fp →
      pred pkg fp = true →
      jsIncludes fp "node_modules" = true →
      observeModule pred tbl ev = mapSet tbl (makePackageMapKeyForPackage pkg) ⟨fp, pkg⟩) ∧
    (ev.resourceResolveData.bind (·.descriptionFileData) = none →
      observeModule pred tbl ev = tbl) ∧
    (ev.resourceResolveData.bind (·.descriptionFileRoot) = none →
      observeModule pred tbl ev = tbl) ∧
    (∀ pkg fp,
      ev.resourceResolveData.bind (·.descriptionFileData) = some pkg →
      ev.resourceResolveData.bind (·.descriptionFileRoot) = some fp →
      (pred pkg fp = false ∨ jsIncludes fp "node_modules" = false) →
      observeModule pred tbl ev = tbl) := by
  refine ⟨?_, ?_, ?_, ?_⟩
  · intro pkg fp hd hr hpred hinc
    have hfp : jsTruthyStr fp = true := by
      by_cases h : fp = ""
      · subst h
        exact absurd hinc (by decide)
      · simpa [jsTruthyStr] using h
    exact observe_of_accepts pred tbl ev hd hr (by simp [hfp, hpred, hinc])
  · intro hd
    unfold observeModule
    simp [hd]
  · intro hr
    unfold observeModule
    rcases hd : ev.resourceResolveData.bind (·.descriptionFileData) with _ | pkg <;>
      simp [hd, hr]
  · intro pkg fp hd hr hor
    unfold observeModule
    rcases hor with h | h <;> simp [hd, hr, h]

/-- Witness for claim C4: a fully-populated event passing all four
conditions upserts its entry into the empty table. -/
theorem c4_discovery_guard_witness :
    observeModule (fun _ _ => true) []
        ⟨some ⟨some ⟨"foo", "1.0.0", none, none, none, none, none⟩,
          some "/repo/node_modules/foo", none⟩⟩ =
      [("foo@1.0.0",
        ⟨"/repo/node_modules/foo", ⟨"foo", "1.0.0", none, none, none, none, none⟩⟩)] := by
  have h := (c4_discovery_guard (fun _ _ => true) []
      ⟨some ⟨some ⟨"foo", "1.0.0", none, none, none, none, none⟩,
        some "/repo/node_modules/foo", none⟩⟩).1
    ⟨"foo", "1.0.0", none, none, none, none, none⟩ "/repo/node_modules/foo"
    rfl rfl rfl (by decide)
  exact h.trans (by decide)

/-!  Lemmas about the copyright extraction. -/

theorem findCopyrightFrom_ne_nil :
    ∀ {cs res : List Char}, findCopyrightFrom cs = some res → res ≠ [] := by
  intro cs
  induction cs with
  | nil =>
    intro res h
    exact absurd h (by simp [findCopyrightFrom])
  | cons c cs ih =>
    intro res h
    unfold findCopyrightFrom at h
    by_cases hp : ("Copyright".toList).isPrefixOf (c :: cs) = true
    · rw [if_pos hp] at h
      have hres : res = takeLine (c :: cs) := (Option.some.inj h).symm
      have hc : c = 'C' := by
        have hlit : ("Copyright".toList) = 'C' :: "opyright".toList := rfl
        rw [hlit] at hp
        simp only [List.isPrefixOf, Bool.and_eq_true] at hp
        exact (eq_of_beq hp.1).symm
      subst hc
      rw [hres]
      simp [takeLine, List.takeWhile]
    · rw [if_neg hp] at h
      exact ih h

theorem copyrightFirstMatch_ne_empty {t s : String}
    (h : copyrightFirstMatch t = some s) : s ≠ "" := by
  unfold copyrightFirstMatch at h
  cases hf : findCopyrightFrom t.toList with
  | none =>
    rw [hf] at h
    exact absurd h (by simp)
  | some res =>
    rw [hf] at h
    have hmk : String.mk res = s := Option.some.inj h
    have hres : res ≠ [] := findCopyrightFrom_ne_nil hf
    intro hs
    rw [← hmk] at hs
    exact hres (congrArg String.data hs)

/-!  Claim C7. -/

/-- Claim C7: for every entry whose package folder search finds a license
file, the produced record's licenseSource is the full text of that file,
and its copyright is the first substring of that text matching the
copyright-statement pattern, or the descriptor's derived author string
when no match exists. -/
theorem c7_license_source_and_copyright (fs : InputFileSystem) (entry : ThirdPartyEntry)
    (p : String) (h : getLicenseFilePath fs entry.packageFolderPath = some p) :
    (processEntry fs entry).licenseSource = some (fs.readFile p) ∧
    (processEntry fs entry).copyright =
      (match copyrightFirstMatch (fs.readFile p) with
       | some c => some c
       | none => parsePackageAuthor entry.packageJsonData) := by
  unfold processEntry
  rw [h]
  refine ⟨rfl, ?_⟩
  show jsOrOptStr (parseCopyright (fs.readFile p)) (parsePackageAuthor entry.packageJsonData) = _
  unfold parseCopyright
  cases hm : copyrightFirstMatch (fs.readFile p) with
  | none => simp [jsOrOptStr, hm]
  | some c =>
    have hc : c ≠ "" := copyrightFirstMatch_ne_empty hm
    simp [jsOrOptStr, hm, jsTruthyStr, hc]

/-- Witness for claim C7: a folder listing containing `LICENSE` whose text
is "Copyright (c) 2020 Acme Corp\nMIT License text..." yields that full
text as licenseSource and "Copyright (c) 2020 Acme Corp" as copyright. -/
theorem c7_license_source_and_copyright_witness :
    (processEntry
        ⟨fun _ => ["LICENSE"], fun _ => "Copyright (c) 2020 Acme Corp\nMIT License text..."⟩
        ⟨"/pkg/foo", ⟨"foo", "1.0.0", none, none, none, none, none⟩⟩).licenseSource =
      some "Copyright (c) 2020 Acme Corp\nMIT License text..." ∧
    (processEntry
        ⟨fun _ => ["LICENSE"], fun _ => "Copyright (c) 2020 Acme Corp\nMIT License text..."⟩
        ⟨"/pkg/foo", ⟨"foo", "1.0.0", none, none, none, none, none⟩⟩).copyright =
      some "Copyright (c) 2020 Acme Corp" := by
  have h := c7_license_source_and_copyright
    ⟨fun _ => ["LICENSE"], fun _ => "Copyright (c) 2020 Acme Corp\nMIT License text..."⟩
    ⟨"/pkg/foo", ⟨"foo", "1.0.0", none, none, none, none, none⟩⟩
    "/pkg/foo/LICENSE" (by decide)
  exact ⟨h.1, h.2.trans (by decide)⟩

/-!  Claim C8. -/

/-- Claim C8: when the package folder's directory listing contains
filenames matching the license-filename pattern, exactly one license file
is chosen, namely the first matching filename in listing order (joined
onto the folder path). -/
theorem c8_first_matching_license_file (fs : InputFileSystem) (modulePath : String)
    (f : String) (rest : List String)
    (h : (fs.readdir modulePath).filter licenseFileMatches = f :: rest) :
    getLicenseFilePath fs modulePath = some (pathJoin modulePath f) := by
  unfold getLicenseFilePath
  rw [List.map_id, h]
  rfl

/-- Witness for claim C8: with the two files `LICENSE` and `LICENSE.txt`
in one folder, the one listed first by the directory listing is chosen,
in either listing order. -/
theorem c8_first_matching_license_file_witness :
    getLicenseFilePath ⟨fun _ => ["LICENSE", "LICENSE.txt"], fun _ => ""⟩ "/pkg" =
      some "/pkg/LICENSE" ∧
    getLicenseFilePath ⟨fun _ => ["LICENSE.txt", "LICENSE"], fun _ => ""⟩ "/pkg" =
      some "/pkg/LICENSE.txt" := by
  constructor
  · have h := c8_first_matching_license_file
      ⟨fun _ => ["LICENSE", "LICENSE.txt"], fun _ => ""⟩ "/pkg"
      "LICENSE" ["LICENSE.txt"] (by decide)
    exact h.trans (by decide)
  · have h := c8_first_matching_license_file
      ⟨fun _ => ["LICENSE.txt", "LICENSE"], fun _ => ""⟩ "/pkg"
      "LICENSE.txt" ["LICENSE"] (by decide)
    exact h.trans (by decide)

/-!  Claim C9. -/

/-- Claim C9: for every entry whose package folder contains no license
file, the produced record carries no licenseSource and its copyright is
the descriptor's author derivation — which takes a string author field
verbatim, an object author field's name sub-field, and is otherwise
absent. -/
theorem c9_no_license_file_record :
    (∀ (fs : InputFileSystem) (entry : ThirdPartyEntry),
      getLicenseFilePath fs entry.packageFolderPath = none →
      processEntry fs entry =
        { name := entry.packageJsonData.name,
          version := entry.packageJsonData.version,
          license := parseLicense entry.packageJsonData,
          copyright := parsePackageAuthor entry.packageJsonData }) ∧
    (∀ d : IPackageData,
      (∀ s, d.author = some (.str s) → parsePackageAuthor d = some s) ∧
      (∀ n, d.author = some (.obj n) → parsePackageAuthor d = n) ∧
      (d.author = none → parsePackageAuthor d = none)) := by
  constructor
  · intro fs entry h
    unfold processEntry
    rw [h]
  · intro d
    refine ⟨?_, ?_, ?_⟩
    · intro s hs
      simp [parsePackageAuthor, hs]
    · intro n hn
      simp [parsePackageAuthor, hn]
    · intro hn
      simp [parsePackageAuthor, hn]

/-- Witness for claim C9: the descriptor
`{name: "foo", version: "1.0.0", license: "MIT", author: "Jane Doe"}` with
an empty folder listing yields the record
`{name: "foo", version: "1.0.0", license: "MIT", copyright: "Jane Doe"}`
with licenseSource absent. -/
theorem c9_no_license_file_record_witness :
    processEntry ⟨fun _ => [], fun _ => ""⟩
        ⟨"/pkg/foo",
          ⟨"foo", "1.0.0", some "MIT", none, some (.str "Jane Doe"), none, none⟩⟩ =
      ⟨"foo", "1.0.0", some "MIT", none, none, some "Jane Doe", none⟩ := by
  have h := c9_no_license_file_record.1 ⟨fun _ => [], fun _ => ""⟩
    ⟨"/pkg/foo", ⟨"foo", "1.0.0", some "MIT", none, some (.str "Jane Doe"), none, none⟩⟩
    (by decide)
  exact h.trans (by decide)

end EmbeddedDeps
